import Mathlib

/-!
Shallow embedding of the hyperspectral calibration and spectral-extraction
pipeline: the calibration notebook's `apply_calibration` and
`resize_hyperspectral_image`, and the extraction notebook's `process_image`.
Finite floating-point sample values are modelled as exact rationals; the
special values produced by division by zero (NaN and the signed infinities)
are tracked explicitly by the type `FloatVal`.
-/

deriving instance DecidableEq for Except

/-- Value of an IEEE-style floating computation: a finite value is kept
exact as a rational, and the special values arising from division by zero
are tracked explicitly. -/
inductive FloatVal where
  | fin : ℚ → FloatVal
  | posInf : FloatVal
  | negInf : FloatVal
  | nan : FloatVal
deriving DecidableEq

/-- Division of two finite values under IEEE rules, as numpy performs it
elementwise: a positive value divided by zero gives +Inf, a negative one
gives -Inf, zero divided by zero gives NaN, and otherwise the exact
quotient. -/
def fdiv (a b : ℚ) : FloatVal :=
  if b = 0 then
    if a = 0 then FloatVal.nan
    else if 0 < a then FloatVal.posInf
    else FloatVal.negInf
  else FloatVal.fin (a / b)

/-- Comparison `x > t` of a float value against a finite threshold, under
the comparison semantics numpy uses elementwise: a NaN comparison is
false, +Inf > t is true, and -Inf > t is false. -/
def fgtQ (x : FloatVal) (t : ℚ) : Bool :=
  match x with
  | FloatVal.fin a => decide (t < a)
  | FloatVal.posInf => true
  | FloatVal.negInf => false
  | FloatVal.nan => false

/-- Clamp to [0, 1] as performed by `np.clip(x, 0, 1)`: finite values are
clamped to the interval, +Inf becomes 1, -Inf becomes 0, and NaN
propagates unchanged. -/
def fclip01 (x : FloatVal) : FloatVal :=
  match x with
  | FloatVal.fin a => FloatVal.fin (min (max a 0) 1)
  | FloatVal.posInf => FloatVal.fin 1
  | FloatVal.negInf => FloatVal.fin 0
  | FloatVal.nan => FloatVal.nan

/-- Whether a float value is a finite value inside the closed interval
[0, 1]. -/
def inUnitF (x : FloatVal) : Bool :=
  match x with
  | FloatVal.fin a => decide (0 ≤ a) && decide (a ≤ 1)
  | _ => false

/-- Elementwise calibration from the calibration notebook:
`calibrated_image = (raw_image - dark_ref) / (white_ref - dark_ref)`
followed by `np.clip(calibrated_image, 0, 1)`. Cubes are represented as
total functions from (row, column, band) indices to exact rational sample
values; the equation is applied at every index position. -/
def apply_calibration (raw white dark : ℕ → ℕ → ℕ → ℚ) : ℕ → ℕ → ℕ → FloatVal :=
  fun r c b => fclip01 (fdiv (raw r c b - dark r c b) (white r c b - dark r c b))

/-- Linear interpolation between two values, the building block of the
order-1 spline interpolation used by `scipy.ndimage.zoom(..., order=1)`. -/
def lerp (a b t : ℚ) : ℚ := (1 - t) * a + t * b

/-- Clamp an integer coordinate into the valid index range [0, n-1] of an
axis of length n (nearest-boundary handling at the edges). -/
def clampIdx (n : ℕ) (z : ℤ) : ℕ := min z.toNat (n - 1)

/-- Source coordinate on one axis for output index i, as
`scipy.ndimage.zoom` maps it with its default grid mode: the first and
last samples are aligned, so index i maps to i * (inSize - 1) / (outSize - 1);
a degenerate output axis maps to coordinate 0. -/
def axisPos (inSize outSize : ℕ) (i : ℕ) : ℚ :=
  if outSize ≤ 1 then 0 else (i * (inSize - 1 : ℕ) : ℚ) / ((outSize - 1 : ℕ) : ℚ)

/-- Order-1 (trilinear) interpolation of the samples of a cube at a
rational coordinate, mirroring `scipy.ndimage.zoom` with `order=1`: the
eight surrounding grid samples are combined with the fractional parts of
the coordinate. -/
def triInterp (n1 n2 n3 : ℕ) (g : ℕ → ℕ → ℕ → ℚ) (x y z : ℚ) : ℚ :=
  let i : ℤ := ⌊x⌋
  let fx : ℚ := x - i
  let j : ℤ := ⌊y⌋
  let fy : ℚ := y - j
  let k : ℤ := ⌊z⌋
  let fz : ℚ := z - k
  let i0 := clampIdx n1 i
  let i1 := clampIdx n1 (i + 1)
  let j0 := clampIdx n2 j
  let j1 := clampIdx n2 (j + 1)
  let k0 := clampIdx n3 k
  let k1 := clampIdx n3 (k + 1)
  lerp
    (lerp (lerp (g i0 j0 k0) (g i0 j0 k1) fz) (lerp (g i0 j1 k0) (g i0 j1 k1) fz) fy)
    (lerp (lerp (g i1 j0 k0) (g i1 j0 k1) fz) (lerp (g i1 j1 k0) (g i1 j1 k1) fz) fy)
    fx

/-- Hyperspectral cube: spatial and spectral extents plus a total sample
function over (row, column, band) indices. -/
structure HSImage where
  rows : ℕ
  cols : ℕ
  bands : ℕ
  data : ℕ → ℕ → ℕ → ℚ

/-- Zoom factors computed by `resize_hyperspectral_image` in the
calibration notebook: the row and column axes are scaled by the ratios of
the target extents to the current extents and the band axis is left
unscaled, `factors = (target_shape[0] / image.shape[0],
target_shape[1] / image.shape[1], 1)`. -/
def zoomFactors (img : HSImage) (t0 t1 : ℕ) : ℚ × ℚ × ℚ :=
  ((t0 : ℚ) / (img.rows : ℚ), (t1 : ℚ) / (img.cols : ℚ), 1)

/-- Resize from the calibration notebook: `zoom(image, factors, order=1)`
with the factors of `zoomFactors`, so the output spatial extents are the
requested targets, the band extent is unchanged, and every output sample
is the order-1 interpolation of the input at the mapped coordinate. -/
def resize_hyperspectral_image (img : HSImage) (t0 t1 : ℕ) : HSImage :=
  { rows := t0
    cols := t1
    bands := img.bands
    data := fun r c b =>
      triInterp img.rows img.cols img.bands img.data
        (axisPos img.rows t0 r) (axisPos img.cols t1 c) (axisPos img.bands img.bands b) }

/-- First index of the minimal element of a list, as `np.argmin` computes
it: ties are broken toward the lowest index. The empty case, on which
numpy raises, is mapped to 0; callers guard it. -/
def np_argmin : List ℚ → ℕ
  | [] => 0
  | x :: xs =>
    match xs with
    | [] => 0
    | y :: ys =>
      let j := np_argmin (y :: ys)
      if (y :: ys).getD j 0 < x then j + 1 else 0

/-- Band selection from the extraction notebook:
`int(np.argmin(np.abs(wavelengths - target)))`. -/
def selectBand (wl : List ℚ) (target : ℚ) : ℕ :=
  np_argmin (wl.map (fun w => |w - target|))

/-- Mask entry for one pixel, from the extraction notebook: the ratio
`img[:, :, wavelength_751_index] / img[:, :, wavelength_676_index]`
compared elementwise with `> threshold`. -/
def maskAt (img : HSImage) (i751 i676 : ℕ) (threshold : ℚ) (r c : ℕ) : Bool :=
  fgtQ (fdiv (img.data r c i751) (img.data r c i676)) threshold

/-- Full boolean mask `mask = ratio_image > threshold`, materialised
row by row. -/
def maskTable (img : HSImage) (i751 i676 : ℕ) (threshold : ℚ) : List (List Bool) :=
  (List.range img.rows).map (fun r =>
    (List.range img.cols).map (fun c => maskAt img i751 i676 threshold r c))

/-- Mask-true pixel positions in row-major order, as `np.argwhere(mask)`
enumerates them. -/
def maskIndices (img : HSImage) (i751 i676 : ℕ) (threshold : ℚ) : List (ℕ × ℕ) :=
  (List.range img.rows).flatMap (fun r =>
    ((List.range img.cols).filter (fun c => maskAt img i751 i676 threshold r c)).map
      (fun c => (r, c)))

/-- Full-band spectrum of one pixel, `img[x, y, :]`. -/
def spectrumAt (img : HSImage) (r c : ℕ) : List ℚ :=
  (List.range img.bands).map (fun b => img.data r c b)

/-- Spectral table: one row per mask-true pixel, in row-major pixel
order, each row the pixel's full-band spectrum. -/
def spectraTable (img : HSImage) (i751 i676 : ℕ) (threshold : ℚ) : List (List ℚ) :=
  (maskIndices img i751 i676 threshold).map (fun p => spectrumAt img p.1 p.2)

/-- Across-band arithmetic mean of one table row, `df.mean(axis=1)` for
that row. -/
def rowMean (row : List ℚ) : ℚ := row.sum / (row.length : ℚ)

/-- Quality filter from the extraction notebook:
`df[row_means >= quality_filter_threshold]`, keeping exactly the rows
whose across-band mean meets the threshold, in order. -/
def filterQuality (df : List (List ℚ)) (t : ℚ) : List (List ℚ) :=
  df.filter (fun row => decide (t ≤ rowMean row))

/-- Filtered table of the pipeline: the spectral table of the mask-true
pixels, restricted by the quality filter. -/
def filteredTable (img : HSImage) (wl : List ℚ) (threshold qt : ℚ) : List (List ℚ) :=
  filterQuality (spectraTable img (selectBand wl 751) (selectBand wl 676) threshold) qt

/-- Step of a 64-bit linear congruential generator. Modelled from the
spec: the notebooks rely on numpy's global Mersenne Twister seeded with
42, whose exact stream is external library state; the spec's contract
relies only on the stream being a deterministic function of the seed,
which this stand-in generator preserves. -/
def lcgNext (s : ℕ) : ℕ := (6364136223846793005 * s + 1442695040888963407) % 2 ^ 64

/-- Seeded uniform shuffle by repeated extraction, modelling the
fixed-seed random permutation drawn by `filtered_df.sample(frac=1)` after
`np.random.seed(42)` and the fixed-seed draw of
`sample(n=..., random_state=42)`: a deterministic permutation of the rows
driven by the generator state. The fuel argument is instantiated with the
list length. -/
def shuffleFuel : ℕ → ℕ → List (List ℚ) → List (List ℚ)
  | 0, _, _ => []
  | fuel + 1, s, l =>
    match l with
    | [] => []
    | a :: as =>
      let i := s % (a :: as).length
      (a :: as).getD i [] :: shuffleFuel fuel (lcgNext s) ((a :: as).eraseIdx i)

/-- Column-wise arithmetic mean of a block of rows,
`shuffled_df.iloc[i*group_size:(i+1)*group_size].mean(axis=0)`. -/
def colMean (rows : List (List ℚ)) : List ℚ :=
  match rows with
  | [] => []
  | r :: rs =>
    (rs.foldl (fun acc row => List.zipWith (· + ·) acc row) r).map
      (fun s => s / ((rs.length + 1 : ℕ) : ℚ))

/-- Group size actually used by the run: the `group_size` argument when
given, else `len(filtered_df)` per
`if group_size is None: group_size = len(filtered_df)`. -/
def resolvedGroupSize (group_size : Option ℕ) (filteredLen : ℕ) : ℕ :=
  group_size.getD filteredLen

/-- Grouped averaged table from the extraction notebook:
`num_groups = len(filtered_df) // group_size`, a fixed-seed random
permutation `shuffled_df = filtered_df.sample(frac=1)` after
`np.random.seed(42)`, and
`averaged_rows = [shuffled_df.iloc[i*group_size:(i+1)*group_size].mean(axis=0)
for i in range(num_groups)]`; the remainder rows past the last complete
block are never touched. -/
def groupedTable (filtered : List (List ℚ)) (group_size : ℕ) : List (List ℚ) :=
  (List.range (filtered.length / group_size)).map
    (fun i => colMean (((shuffleFuel filtered.length 42 filtered).drop (i * group_size)).take
      group_size))

/-- Subsample row count `top_3_percent_count = int(len(averaged_df_shuffled) * 0.03)`,
the floor of three percent of the grouped row count. -/
def top3Count (n : ℕ) : ℕ := n * 3 / 100

/-- Subsample table
`averaged_df_shuffled.sample(n=top_3_percent_count, random_state=42)`: a
fixed-seed draw without replacement of `top3Count` rows of the grouped
table. -/
def subsampleTable (grouped : List (List ℚ)) : List (List ℚ) :=
  (shuffleFuel grouped.length 42 grouped).take (top3Count grouped.length)

/-- Result of one extraction run: the boolean mask, the quality-filtered
spectral table, the randomly grouped averaged table, and the subsample
table persisted as CSV. -/
structure ExtractResult where
  mask : List (List Bool)
  filtered : List (List ℚ)
  grouped : List (List ℚ)
  subsample : List (List ℚ)
deriving DecidableEq

/-- Failure modes of `process_image`: numpy raises on `np.argmin` of an
empty sequence, on reshaping the empty spectra array when the mask selects
zero pixels, and Python raises ZeroDivisionError on
`len(filtered_df) // group_size` when the group size resolves to zero. -/
inductive PipelineError where
  | emptyWavelengths : PipelineError
  | emptyRegion : PipelineError
  | zeroDivision : PipelineError
deriving DecidableEq

/-- Numeric core of `process_image` from the extraction notebook: select
the bands nearest 751 nm and 676 nm, build the ratio mask, extract the
mask-true spectra in row-major order, apply the quality filter, resolve
`group_size` (defaulting to the filtered row count), randomly permute the
filtered rows with the fixed seed, average consecutive blocks of
`group_size` permuted rows into `len(filtered) // group_size` groups, and
draw the fixed-seed subsample of `int(len(grouped) * 0.03)` grouped rows.
Failures of the underlying numpy and Python operations are returned as
explicit errors. -/
def process_image (img : HSImage) (wl : List ℚ) (group_size : Option ℕ)
    (threshold quality_filter_threshold : ℚ) : Except PipelineError ExtractResult :=
  if wl.isEmpty then Except.error PipelineError.emptyWavelengths
  else if (maskIndices img (selectBand wl 751) (selectBand wl 676) threshold).isEmpty then
    Except.error PipelineError.emptyRegion
  else if resolvedGroupSize group_size
      (filteredTable img wl threshold quality_filter_threshold).length = 0 then
    Except.error PipelineError.zeroDivision
  else
    Except.ok
      ⟨maskTable img (selectBand wl 751) (selectBand wl 676) threshold,
       filteredTable img wl threshold quality_filter_threshold,
       groupedTable (filteredTable img wl threshold quality_filter_threshold)
         (resolvedGroupSize group_size
           (filteredTable img wl threshold quality_filter_threshold).length),
       subsampleTable
         (groupedTable (filteredTable img wl threshold quality_filter_threshold)
           (resolvedGroupSize group_size
             (filteredTable img wl threshold quality_filter_threshold).length))⟩

/-- Unfolding equation of `np_argmin` on a list of two or more elements. -/
lemma np_argmin_cons_cons (x y : ℚ) (ys : List ℚ) :
    np_argmin (x :: y :: ys) =
      if (y :: ys).getD (np_argmin (y :: ys)) 0 < x then np_argmin (y :: ys) + 1 else 0 := rfl

/-- Index returned by `np_argmin` is in range on a non-empty list. -/
lemma np_argmin_lt_length (l : List ℚ) (h : l ≠ []) : np_argmin l < l.length := by
  induction l with
  | nil => exact absurd rfl h
  | cons x xs ih =>
    match xs with
    | [] => simp [np_argmin]
    | y :: ys =>
      rw [np_argmin_cons_cons]
      split
      · have := ih (by simp)
        simpa using Nat.succ_lt_succ this
      · simp

/-- Element at the index returned by `np_argmin` is minimal. -/
lemma np_argmin_le (l : List ℚ) (j : ℕ) (hj : j < l.length) :
    l.getD (np_argmin l) 0 ≤ l.getD j 0 := by
  induction l generalizing j with
  | nil => simp at hj
  | cons x xs ih =>
    match xs with
    | [] =>
      match j with
      | 0 => simp [np_argmin]
      | j + 1 => simp at hj
    | y :: ys =>
      rw [np_argmin_cons_cons]
      split
      · rename_i hlt
        match j with
        | 0 => simpa using le_of_lt hlt
        | j + 1 =>
          have hj2 : j < (y :: ys).length := by simpa using hj
          simpa using ih j hj2
      · rename_i hge
        push_neg at hge
        match j with
        | 0 => simp
        | j + 1 =>
          have hj2 : j < (y :: ys).length := by simpa using hj
          have := ih j hj2
          simp only [List.getD_cons_zero, List.getD_cons_succ]
          exact le_trans hge this

/-- Elements strictly before the index returned by `np_argmin` are
strictly greater: ties resolve to the lowest index. -/
lemma np_argmin_first (l : List ℚ) (j : ℕ) (hj : j < np_argmin l) :
    l.getD (np_argmin l) 0 < l.getD j 0 := by
  induction l generalizing j with
  | nil => simp [np_argmin] at hj
  | cons x xs ih =>
    match xs with
    | [] => simp [np_argmin] at hj
    | y :: ys =>
      rw [np_argmin_cons_cons] at hj ⊢
      split at hj
      · rename_i hlt
        rw [if_pos hlt]
        match j with
        | 0 => simpa using hlt
        | j + 1 =>
          have := ih j (by omega)
          simpa using this
      · omega

/-- Element of a mapped range at an in-range position. -/
lemma getD_range_map {α : Type} (n : ℕ) (f : ℕ → α) (d : α) (i : ℕ) (h : i < n) :
    ((List.range n).map f).getD i d = f i := by
  rw [List.getD_eq_getElem?_getD, List.getElem?_map, List.getElem?_range h]
  rfl

/-- Element of a map of a list at an in-range position, for the absolute
wavelength distances of `selectBand`. -/
lemma getD_map_dist (wl : List ℚ) (t : ℚ) (j : ℕ) (hj : j < wl.length) :
    (wl.map (fun w => |w - t|)).getD j 0 = |wl.getD j 0 - t| := by
  induction wl generalizing j with
  | nil => simp at hj
  | cons x xs ih =>
    match j with
    | 0 => simp
    | j + 1 =>
      have : j < xs.length := by simpa using hj
      simpa using ih j this

/-- Filtering with a stronger predicate keeps no more elements. -/
lemma length_filter_mono {α : Type} (p q : α → Bool) (h : ∀ a, p a = true → q a = true) :
    ∀ l : List α, (l.filter p).length ≤ (l.filter q).length := by
  intro l
  induction l with
  | nil => simp
  | cons x xs ih =>
    simp only [List.filter_cons]
    by_cases hp : p x
    · rw [if_pos hp, if_pos (h x hp)]
      simpa using ih
    · rw [if_neg hp]
      split
      · exact le_trans ih (by simp)
      · exact ih

/-- Length of the seeded shuffle: with fuel at least the list length, a
permutation-sized output. -/
lemma shuffleFuel_length (fuel s : ℕ) (l : List (List ℚ)) :
    (shuffleFuel fuel s l).length = min fuel l.length := by
  induction fuel generalizing s l with
  | zero => simp [shuffleFuel]
  | succ n ih =>
    match l with
    | [] => simp [shuffleFuel]
    | a :: as =>
      simp only [shuffleFuel, List.length_cons]
      rw [ih]
      have hi : s % (a :: as).length < (a :: as).length := Nat.mod_lt _ (by simp)
      simp only [List.length_cons] at hi
      rw [List.length_eraseIdx]
      simp only [List.length_cons]
      rw [if_pos hi]
      omega

/-- Three percent of a count, floored, never exceeds the count. -/
lemma top3Count_le (n : ℕ) : top3Count n ≤ n := by
  unfold top3Count
  omega

/-- Row count of the grouped table is the number of complete groups. -/
lemma groupedTable_length (f : List (List ℚ)) (g : ℕ) :
    (groupedTable f g).length = f.length / g := by
  simp [groupedTable]

/-- Row count of the subsample table is exactly `top3Count` of the
grouped row count. -/
lemma subsampleTable_length (gr : List (List ℚ)) :
    (subsampleTable gr).length = top3Count gr.length := by
  unfold subsampleTable
  rw [List.length_take, shuffleFuel_length]
  have h := top3Count_le gr.length
  omega

/-- Linear interpolation at parameter 0 returns the left endpoint. -/
lemma lerp_zero (a b : ℚ) : lerp a b 0 = a := by
  simp [lerp]

/-- Index clamping at an in-range natural coordinate is the identity. -/
lemma clampIdx_natCast (n i : ℕ) (h : i < n) : clampIdx n (i : ℤ) = i := by
  simp only [clampIdx, Int.toNat_natCast]
  omega

/-- Order-1 interpolation at an integer grid coordinate reproduces the
grid sample exactly. -/
lemma triInterp_nat (n1 n2 n3 : ℕ) (g : ℕ → ℕ → ℕ → ℚ) (r c b : ℕ)
    (hr : r < n1) (hc : c < n2) (hb : b < n3) :
    triInterp n1 n2 n3 g (r : ℚ) (c : ℚ) (b : ℚ) = g r c b := by
  have h1 : ⌊((r : ℕ) : ℚ)⌋ = (r : ℤ) := Int.floor_natCast r
  have h2 : ⌊((c : ℕ) : ℚ)⌋ = (c : ℤ) := Int.floor_natCast c
  have h3 : ⌊((b : ℕ) : ℚ)⌋ = (b : ℤ) := Int.floor_natCast b
  simp only [triInterp, h1, h2, h3, Int.cast_natCast, sub_self, lerp_zero,
    clampIdx_natCast _ _ hr, clampIdx_natCast _ _ hc, clampIdx_natCast _ _ hb]

/-- Axis coordinate mapping to an axis of the same extent is the
identity on in-range indices. -/
lemma axisPos_self (n i : ℕ) (h : i < n) : axisPos n n i = (i : ℚ) := by
  unfold axisPos
  split
  · have hi : i = 0 := by omega
    simp [hi]
  · rename_i hn
    have hden : ((n - 1 : ℕ) : ℚ) ≠ 0 := by
      have h2 : 2 ≤ n := by omega
      exact Nat.cast_ne_zero.mpr (by omega)
    rw [mul_div_assoc, div_self hden, mul_one]

/-- Example cube for concrete pipeline runs: one pixel, two bands, with a
band ratio of 3 and an across-band mean of 3/5. -/
def exImg : HSImage :=
  { rows := 1, cols := 1, bands := 2, data := fun _ _ b => if b = 0 then 9/10 else 3/10 }

/-- Example cube on which every band ratio is 0/0: the mask selects zero
pixels. -/
def zeroImg : HSImage :=
  { rows := 2, cols := 2, bands := 2, data := fun _ _ _ => 0 }

/-- Example cube whose single pixel passes the ratio mask (ratio 3) but
fails the default quality filter (across-band mean 1/500 below 1/100). -/
def dimImg : HSImage :=
  { rows := 1, cols := 1, bands := 2, data := fun _ _ b => if b = 0 then 3/1000 else 1/1000 }

/-- Example cube whose single pixel has reflectance 1 at the 751 nm band
and 0 at the 676 nm band, so the band ratio is +Inf. -/
def infRatioImg : HSImage :=
  { rows := 1, cols := 1, bands := 2, data := fun _ _ b => if b = 0 then 1 else 0 }

/-- Example cube with two mask-passing pixels, for a completing grouped
run. -/
def twoPixImg : HSImage :=
  { rows := 1, cols := 2, bands := 2, data := fun _ _ b => if b = 0 then 9/10 else 3/10 }

/-- Example cube with distinct integer samples at every position, for the
resize identity witness. -/
def rampImg : HSImage :=
  { rows := 2, cols := 2, bands := 2, data := fun r c b => ((r + 2 * c + 4 * b : ℕ) : ℚ) }

/-- Result of the completing pipeline run on `exImg` with group size 1. -/
def exRes : ExtractResult :=
  ⟨[[true]], [[9/10, 3/10]], [[9/10, 3/10]], []⟩

/-- Clamping a finite value to [0, 1] lands in the unit interval. -/
lemma inUnitF_fclip01_fin (q : ℚ) : inUnitF (fclip01 (FloatVal.fin q)) = true := by
  simp only [fclip01, inUnitF, Bool.and_eq_true, decide_eq_true_eq]
  exact ⟨le_min (le_max_right q 0) (by norm_num), min_le_right _ _⟩

/-- Clamping any non-NaN float value to [0, 1] lands in the unit
interval; the infinities clamp to the interval bounds. -/
lemma inUnitF_fclip01 (x : FloatVal) (hx : x ≠ FloatVal.nan) :
    inUnitF (fclip01 x) = true := by
  match x with
  | FloatVal.fin q => exact inUnitF_fclip01_fin q
  | FloatVal.posInf => norm_num [fclip01, inUnitF]
  | FloatVal.negInf => norm_num [fclip01, inUnitF]
  | FloatVal.nan => exact absurd rfl hx

/-- C1: for every calibrated cube, wavelength sequence, and parameter set
(the random seed is fixed at 42 inside the pipeline, as in the source),
two runs of the extraction pipeline on equal inputs produce identical
results: the same mask, the same filtered table, the same grouped table,
and the same subsample table. In the embedding every source of
randomness is a deterministic function of the fixed seed, so the whole
pipeline is a pure function of its inputs. -/
theorem C1_extraction_deterministic (img1 img2 : HSImage) (wl1 wl2 : List ℚ)
    (gs1 gs2 : Option ℕ) (th1 th2 qt1 qt2 : ℚ)
    (himg : img1 = img2) (hwl : wl1 = wl2) (hgs : gs1 = gs2) (hth : th1 = th2)
    (hqt : qt1 = qt2) :
    process_image img1 wl1 gs1 th1 qt1 = process_image img2 wl2 gs2 th2 qt2 := by
  subst himg hwl hgs hth hqt
  rfl

/-- Witness for C1: two runs of the pipeline on the example cube with the
default thresholds coincide. -/
theorem C1_extraction_deterministic_witness :
    process_image exImg [751, 676] (some 1) (3/2) (1/100) =
      process_image exImg [751, 676] (some 1) (3/2) (1/100) :=
  C1_extraction_deterministic exImg exImg [751, 676] [751, 676] (some 1) (some 1)
    (3/2) (3/2) (1/100) (1/100) rfl rfl rfl rfl rfl

/-- Counterexample to C2: at a position where raw, white and dark all
agree (here all zero), the division 0/0 gives NaN, `np.clip` propagates
it, and the calibration output element is not within [0, 1]. -/
theorem C2_calibration_unit_counterexample :
    apply_calibration (fun _ _ _ => 0) (fun _ _ _ => 0) (fun _ _ _ => 0) 0 0 0 =
      FloatVal.nan ∧
    inUnitF (apply_calibration (fun _ _ _ => 0) (fun _ _ _ => 0) (fun _ _ _ => 0) 0 0 0) =
      false := by
  constructor <;> with_unfolding_all decide

/-- C2 amended: every element of the calibration output lies within
[0, 1] except at positions where white equals dark and raw also equals
dark; at those positions the output element is NaN. -/
theorem C2_calibration_unit_amended (raw white dark : ℕ → ℕ → ℕ → ℚ) (r c b : ℕ) :
    (¬(white r c b = dark r c b ∧ raw r c b = dark r c b) →
      inUnitF (apply_calibration raw white dark r c b) = true) ∧
    (white r c b = dark r c b → raw r c b = dark r c b →
      apply_calibration raw white dark r c b = FloatVal.nan) := by
  constructor
  · intro h
    unfold apply_calibration
    apply inUnitF_fclip01
    unfold fdiv
    by_cases hw : white r c b - dark r c b = 0
    · have hwd : white r c b = dark r c b := sub_eq_zero.mp hw
      have hrd : raw r c b ≠ dark r c b := fun hr => h ⟨hwd, hr⟩
      have hr0 : raw r c b - dark r c b ≠ 0 := sub_ne_zero.mpr hrd
      rw [if_pos hw, if_neg hr0]
      split <;> simp
    · rw [if_neg hw]
      simp
  · intro hw hr
    unfold apply_calibration fdiv
    rw [if_pos (sub_eq_zero.mpr hw), if_pos (sub_eq_zero.mpr hr)]
    rfl

/-- Witness for C2 (amended): a generic in-range position, raw 1/2
between dark 0 and white 1, calibrates into [0, 1]. -/
theorem C2_calibration_unit_witness :
    inUnitF (apply_calibration (fun _ _ _ => 1/2) (fun _ _ _ => 1) (fun _ _ _ => 0) 0 0 0) =
      true :=
  (C2_calibration_unit_amended (fun _ _ _ => 1/2) (fun _ _ _ => 1) (fun _ _ _ => 0)
    0 0 0).1 (by norm_num)

/-- Counterexample to C3: on a pixel with reflectance 1 at the 751 nm
band and 0 at the 676 nm band, the ratio is +Inf, yet the mask entry is
true — +Inf > threshold holds under numpy comparison semantics, so an
Inf ratio does not evaluate to false as the claim states. -/
theorem C3_mask_inf_counterexample :
    fdiv (infRatioImg.data 0 0 (selectBand [751, 676] 751))
        (infRatioImg.data 0 0 (selectBand [751, 676] 676)) = FloatVal.posInf ∧
    ((maskTable infRatioImg (selectBand [751, 676] 751) (selectBand [751, 676] 676)
        (3/2)).getD 0 []).getD 0 false = true := by
  constructor <;> with_unfolding_all decide

/-- C3 amended: for every cube and in-range pixel, the mask value equals
the unclamped band ratio compared strictly greater than the threshold;
whenever the ratio is NaN or -Inf the mask is false, and whenever the
ratio is +Inf the mask is true. -/
theorem C3_mask_semantics_amended (img : HSImage) (i751 i676 : ℕ) (th : ℚ) (r c : ℕ)
    (hr : r < img.rows) (hc : c < img.cols) :
    ((maskTable img i751 i676 th).getD r []).getD c false =
      fgtQ (fdiv (img.data r c i751) (img.data r c i676)) th ∧
    (fdiv (img.data r c i751) (img.data r c i676) = FloatVal.nan →
      ((maskTable img i751 i676 th).getD r []).getD c false = false) ∧
    (fdiv (img.data r c i751) (img.data r c i676) = FloatVal.negInf →
      ((maskTable img i751 i676 th).getD r []).getD c false = false) ∧
    (fdiv (img.data r c i751) (img.data r c i676) = FloatVal.posInf →
      ((maskTable img i751 i676 th).getD r []).getD c false = true) := by
  have hentry : ((maskTable img i751 i676 th).getD r []).getD c false =
      maskAt img i751 i676 th r c := by
    unfold maskTable
    rw [getD_range_map _ _ _ _ hr, getD_range_map _ _ _ _ hc]
  refine ⟨by rw [hentry]; rfl, ?_, ?_, ?_⟩ <;> intro hdiv <;> rw [hentry] <;>
    unfold maskAt <;> rw [hdiv] <;> rfl

/-- Witness for C3 (amended): on the example cube with the +Inf ratio,
the mask entry at the only pixel equals the ratio comparison. -/
theorem C3_mask_semantics_witness :
    ((maskTable infRatioImg 0 1 (3/2)).getD 0 []).getD 0 false =
      fgtQ (fdiv (infRatioImg.data 0 0 0) (infRatioImg.data 0 0 1)) (3/2) :=
  (C3_mask_semantics_amended infRatioImg 0 1 (3/2) 0 0 (by norm_num [infRatioImg])
    (by norm_num [infRatioImg])).1

/-- C4: for every extraction run that completes, the grouped table has
exactly `len(filtered) // group_size` rows (with the group size resolved
to the filtered row count when unspecified), and the subsample table has
exactly `floor(len(grouped) * 0.03)` rows. -/
theorem C4_row_counts (img : HSImage) (wl : List ℚ) (gso : Option ℕ) (th qt : ℚ)
    (res : ExtractResult) (h : process_image img wl gso th qt = Except.ok res) :
    res.grouped.length = res.filtered.length / resolvedGroupSize gso res.filtered.length ∧
    res.subsample.length = top3Count res.grouped.length := by
  unfold process_image at h
  split at h
  · exact absurd h (by simp)
  · split at h
    · exact absurd h (by simp)
    · split at h
      · exact absurd h (by simp)
      · have hres := Except.ok.inj h
        subst hres
        exact ⟨groupedTable_length _ _, subsampleTable_length _⟩

/-- Witness for C4: a completing run on the example cube with group size
1: one filtered row, one group, and floor(1 * 0.03) = 0 subsample rows. -/
theorem C4_row_counts_witness :
    exRes.grouped.length = exRes.filtered.length / resolvedGroupSize (some 1)
      exRes.filtered.length ∧
    exRes.subsample.length = top3Count exRes.grouped.length :=
  C4_row_counts exImg [751, 676] (some 1) (3/2) (1/100) exRes
    (by with_unfolding_all decide)

/-- C5: for every input cube on which the band-ratio mask selects zero
pixels, the extraction operation fails — the reshape of the empty
spectra array raises — rather than silently producing empty tables. -/
theorem C5_empty_mask_error (img : HSImage) (wl : List ℚ) (gso : Option ℕ) (th qt : ℚ)
    (hwl : wl ≠ [])
    (hmask : maskIndices img (selectBand wl 751) (selectBand wl 676) th = []) :
    process_image img wl gso th qt = Except.error PipelineError.emptyRegion := by
  unfold process_image
  rw [if_neg (by simp [hwl]), if_pos (by simp [hmask])]

/-- Witness for C5: the all-zero cube has an all-0/0 ratio image, the
mask selects zero pixels, and the run fails with the empty-region
error. -/
theorem C5_empty_mask_error_witness :
    process_image zeroImg [751, 676] (some 20) (3/2) (1/100) =
      Except.error PipelineError.emptyRegion :=
  C5_empty_mask_error zeroImg [751, 676] (some 20) (3/2) (1/100) (by simp)
    (by with_unfolding_all decide)

/-- Counterexample to C6: with one filtered row and group size 20 the
run does not fail with any error; it completes and returns an empty
grouped table and an empty subsample table. -/
theorem C6_insufficient_data_counterexample :
    process_image exImg [751, 676] (some 20) (3/2) (1/100) =
      Except.ok ⟨[[true]], [[9/10, 3/10]], [], []⟩ := by
  with_unfolding_all decide

/-- C6 amended: whenever `group_size` is positive and exceeds the
filtered row count (so there are zero complete groups), the extraction
operation completes and silently returns an empty grouped table and an
empty subsample table — no InsufficientDataError exists in the code. -/
theorem C6_oversized_group_silent (img : HSImage) (wl : List ℚ) (g : ℕ) (th qt : ℚ)
    (hwl : wl ≠ [])
    (hmask : maskIndices img (selectBand wl 751) (selectBand wl 676) th ≠ [])
    (hg : 0 < g)
    (hlen : (filteredTable img wl th qt).length < g) :
    process_image img wl (some g) th qt =
      Except.ok ⟨maskTable img (selectBand wl 751) (selectBand wl 676) th,
        filteredTable img wl th qt, [], []⟩ := by
  unfold process_image
  rw [if_neg (by simp [hwl]), if_neg (by simp [hmask]),
    if_neg (by simp only [resolvedGroupSize, Option.getD_some]; omega)]
  have hzero : (filteredTable img wl th qt).length / g = 0 := Nat.div_eq_of_lt hlen
  have hgr : groupedTable (filteredTable img wl th qt)
      (resolvedGroupSize (some g) (filteredTable img wl th qt).length) = [] := by
    unfold groupedTable resolvedGroupSize
    simp [hzero]
  rw [hgr]
  rfl

/-- Witness for C6 (amended): two filtered rows with group size 3
complete with empty grouped and subsample tables. -/
theorem C6_oversized_group_silent_witness :
    process_image twoPixImg [751, 676] (some 3) (3/2) (1/100) =
      Except.ok ⟨maskTable twoPixImg (selectBand [751, 676] 751)
          (selectBand [751, 676] 676) (3/2),
        filteredTable twoPixImg [751, 676] (3/2) (1/100), [], []⟩ :=
  C6_oversized_group_silent twoPixImg [751, 676] 3 (3/2) (1/100) (by simp)
    (by with_unfolding_all decide) (by norm_num) (by with_unfolding_all decide)

/-- C7: for every non-empty wavelength sequence and every target,
band selection returns an in-range index whose wavelength has minimal
absolute difference from the target, and every strictly earlier index
has a strictly larger difference (ties resolve to the lowest index). -/
theorem C7_band_selection_nearest (wl : List ℚ) (target : ℚ) (h : wl ≠ []) :
    selectBand wl target < wl.length ∧
    (∀ j, j < wl.length →
      |wl.getD (selectBand wl target) 0 - target| ≤ |wl.getD j 0 - target|) ∧
    (∀ j, j < selectBand wl target →
      |wl.getD (selectBand wl target) 0 - target| < |wl.getD j 0 - target|) := by
  unfold selectBand
  have hmap : wl.map (fun w => |w - target|) ≠ [] := by simpa using h
  have hlen : (wl.map (fun w => |w - target|)).length = wl.length := List.length_map _ _
  have hsel : np_argmin (wl.map (fun w => |w - target|)) < wl.length := by
    have := np_argmin_lt_length _ hmap
    rwa [hlen] at this
  refine ⟨hsel, ?_, ?_⟩
  · intro j hj
    have := np_argmin_le (wl.map (fun w => |w - target|)) j (by rwa [hlen])
    rwa [getD_map_dist _ _ _ hsel, getD_map_dist _ _ _ hj] at this
  · intro j hj
    have hjlen : j < wl.length := lt_trans hj hsel
    have := np_argmin_first (wl.map (fun w => |w - target|)) j hj
    rwa [getD_map_dist _ _ _ hsel, getD_map_dist _ _ _ hjlen] at this

/-- Witness for C7: wavelengths [675, 676, 677] with target 676 select
index 1, and the selected index is in range. -/
theorem C7_band_selection_nearest_witness :
    selectBand [675, 676, 677] 676 = 1 ∧ selectBand [675, 676, 677] 676 < 3 := by
  refine ⟨by with_unfolding_all decide, ?_⟩
  exact (C7_band_selection_nearest [675, 676, 677] 676 (by simp)).1

/-- C8: the quality filter is monotone in its threshold: for every
spectral table and thresholds t1 ≤ t2, the number of rows kept at t2 is
no greater than the number kept at t1. -/
theorem C8_quality_filter_monotone (df : List (List ℚ)) (t1 t2 : ℚ) (h : t1 ≤ t2) :
    (filterQuality df t2).length ≤ (filterQuality df t1).length := by
  unfold filterQuality
  apply length_filter_mono
  intro row hrow
  simp only [decide_eq_true_eq] at hrow ⊢
  exact le_trans h hrow

/-- Witness for C8: on a two-row table, raising the threshold from 0 to
1 keeps no more rows. -/
theorem C8_quality_filter_monotone_witness :
    (0 : ℚ) ≤ 1 ∧
    (filterQuality [[1, 1], [0, 0]] 1).length ≤ (filterQuality [[1, 1], [0, 0]] 0).length :=
  ⟨by norm_num, C8_quality_filter_monotone [[1, 1], [0, 0]] 0 1 (by norm_num)⟩

/-- C9: resampling a reference cube to its own shape is the identity:
the row and column scale factors are both 1, the band axis is unscaled,
and order-1 interpolation reproduces every element exactly. -/
theorem C9_resize_self_identity (img : HSImage) (h0 : 0 < img.rows) (h1 : 0 < img.cols) :
    zoomFactors img img.rows img.cols = (1, 1, 1) ∧
    (resize_hyperspectral_image img img.rows img.cols).rows = img.rows ∧
    (resize_hyperspectral_image img img.rows img.cols).cols = img.cols ∧
    (resize_hyperspectral_image img img.rows img.cols).bands = img.bands ∧
    (∀ r c b, r < img.rows → c < img.cols → b < img.bands →
      (resize_hyperspectral_image img img.rows img.cols).data r c b = img.data r c b) := by
  refine ⟨?_, rfl, rfl, rfl, ?_⟩
  · unfold zoomFactors
    rw [div_self (Nat.cast_ne_zero.mpr (Nat.pos_iff_ne_zero.mp h0)),
      div_self (Nat.cast_ne_zero.mpr (Nat.pos_iff_ne_zero.mp h1))]
  · intro r c b hr hc hb
    show triInterp img.rows img.cols img.bands img.data
      (axisPos img.rows img.rows r) (axisPos img.cols img.cols c)
      (axisPos img.bands img.bands b) = img.data r c b
    rw [axisPos_self _ _ hr, axisPos_self _ _ hc, axisPos_self _ _ hb]
    exact triInterp_nat _ _ _ _ _ _ _ hr hc hb

/-- Witness for C9: resampling the 2 by 2 by 2 ramp cube to its own shape
reproduces the sample at position (1, 1, 1). -/
theorem C9_resize_self_identity_witness :
    (0 : ℕ) < 2 ∧
    (resize_hyperspectral_image rampImg 2 2).data 1 1 1 = rampImg.data 1 1 1 := by
  refine ⟨by norm_num, ?_⟩
  exact (C9_resize_self_identity rampImg (by norm_num [rampImg])
    (by norm_num [rampImg])).2.2.2.2 1 1 1 (by norm_num [rampImg])
    (by norm_num [rampImg]) (by norm_num [rampImg])

/-- C10: when the quality filter leaves zero rows and `group_size` is
unspecified, the default rule sets the group size to the filtered row
count — zero — and `len(filtered_df) // group_size` divides by zero, so
the extraction operation fails on this input instead of producing an
empty grouped table. -/
theorem C10_zero_group_default_error (img : HSImage) (wl : List ℚ) (th qt : ℚ)
    (hwl : wl ≠ [])
    (hmask : maskIndices img (selectBand wl 751) (selectBand wl 676) th ≠ [])
    (hfilt : filteredTable img wl th qt = []) :
    process_image img wl none th qt = Except.error PipelineError.zeroDivision := by
  unfold process_image
  rw [if_neg (by simp [hwl]), if_neg (by simp [hmask]),
    if_pos (by simp [resolvedGroupSize, hfilt])]

/-- Witness for C10: the dim cube's only pixel passes the mask but not
the quality filter, so with unspecified group size the run fails with
the division-by-zero error. -/
theorem C10_zero_group_default_error_witness :
    process_image dimImg [751, 676] none (3/2) (1/100) =
      Except.error PipelineError.zeroDivision :=
  C10_zero_group_default_error dimImg [751, 676] (3/2) (1/100) (by simp)
    (by with_unfolding_all decide) (by with_unfolding_all decide)
